import Mathlib

/-!
Verification of the peep package installer ("prudently examine every
package"), a trust-verification layer in front of pip.  This file is a
shallow embedding of src/peep/__init__.py: Python strings are modelled as
lists of characters, Python dicts as association lists with first-match
lookup and replace-or-append update, byte strings as lists of naturals
below 256, and the fallible operations as Except-valued functions.  The
top-level `main` routine is modelled as a pure function over an
environment that supplies the behaviour of the external collaborators
(argv, pip download/install status codes, parsed requirements, file
contents and requirement-file lines).
-/

/-- A Python string, modelled as its list of characters. -/
abbrev Str := List Char

deriving instance DecidableEq for Except

/-- Python dict lookup `m[k]` as an option: first matching key wins.
A successfully built Python dict has distinct keys, so first-match
equals the dict's single binding. -/
def dictGet : List (Str × Str) → Str → Option Str
  | [], _ => none
  | (k1, v1) :: rest, k => if k1 = k then some v1 else dictGet rest k

/-- Python dict update `m[k] = v`: replace the binding in place if the key
exists (Python dicts keep the original insertion position), append
otherwise. -/
def dictSet : List (Str × Str) → Str → Str → List (Str × Str)
  | [], k, v => [(k, v)]
  | (k1, v1) :: rest, k, v =>
    if k1 = k then (k, v) :: rest else (k1, v1) :: dictSet rest k v

/-- The archive extensions recognised by `version_of_archive`, in the order
the source lists them: `['.tar.gz', '.tgz', '.tar', '.zip']`. -/
def extensions : List Str := [".tar.gz".data, ".tgz".data, ".tar".data, ".zip".data]

/-- The for-loop with `break` in `version_of_archive`: strip the first
extension in `exts` that `f` ends with (Python `filename[:-len(ext)]`),
leaving `f` unchanged when none matches. -/
def stripOneSuffix : List Str → Str → Str
  | [], f => f
  | e :: rest, f =>
    if e.isSuffixOf f then f.take (f.length - e.length) else stripOneSuffix rest f

/-- `version_of_archive(filename, package_name)`: strip one known archive
extension, require the stem to start with the package name (Python
`filename.startswith(package_name)`), and return the stem with the
package name plus one further character (the assumed '-' separator)
removed (Python `filename[len(package_name) + 1:]`).  The RuntimeError
raised on the failed startswith check is the `Except.error`. -/
def version_of_archive (filename package_name : Str) : Except Unit Str :=
  let stem := stripOneSuffix extensions filename
  if package_name.isPrefixOf stem then Except.ok (stem.drop (package_name.length + 1))
  else Except.error ()

theorem take_append_of_isSuffixOf (e f : Str) (h : e.isSuffixOf f = true) :
    f.take (f.length - e.length) ++ e = f := by
  rcases List.isSuffixOf_iff_suffix.mp h with ⟨t, ht⟩
  subst ht
  simp [List.take_left']

theorem stripOneSuffix_reconstruct (exts : List Str) (f : Str)
    (h : ∃ e ∈ exts, e.isSuffixOf f = true) :
    ∃ e ∈ exts, e.isSuffixOf f = true ∧ stripOneSuffix exts f ++ e = f := by
  induction exts with
  | nil => rcases h with ⟨e, he, _⟩; exact absurd he (List.not_mem_nil e)
  | cons e0 rest ih =>
    by_cases h0 : e0.isSuffixOf f = true
    · refine ⟨e0, List.mem_cons_self e0 rest, h0, ?_⟩
      simp [stripOneSuffix, h0, take_append_of_isSuffixOf e0 f h0]
    · rcases h with ⟨e, he, hsuf⟩
      rcases List.mem_cons.mp he with rfl | he'
      · exact absurd hsuf h0
      · rcases ih ⟨e, he', hsuf⟩ with ⟨e', he', hs', hr'⟩
        refine ⟨e', List.mem_cons_of_mem e0 he', hs', ?_⟩
        simpa [stripOneSuffix, h0] using hr'

/-- Claim C6: the version extractor strips one known archive suffix (the
first match in the fixed priority list, whose head is the longest,
seven-character compound suffix), and on success returns the stem with the
package name and the one-character separator removed; in particular
`version_of_archive "nose-1.3.0.tar.gz" "nose" = ok "1.3.0"`. -/
theorem version_of_archive_spec :
    version_of_archive "nose-1.3.0.tar.gz".data "nose".data = Except.ok "1.3.0".data
    ∧ extensions.map List.length = [7, 4, 4, 4]
    ∧ (∀ f : Str, (∃ e ∈ extensions, e.isSuffixOf f = true) →
        ∃ e ∈ extensions, e.isSuffixOf f = true ∧ stripOneSuffix extensions f ++ e = f)
    ∧ (∀ f p v : Str, version_of_archive f p = Except.ok v →
        p.isPrefixOf (stripOneSuffix extensions f) = true ∧
        v = (stripOneSuffix extensions f).drop (p.length + 1)) := by
  refine ⟨by decide, by decide,
    fun f h => stripOneSuffix_reconstruct extensions f h, ?_⟩
  intro f p v h
  by_cases hp : p.isPrefixOf (stripOneSuffix extensions f) = true
  · refine ⟨hp, ?_⟩
    simpa [version_of_archive, hp] using h.symm
  · simp [version_of_archive, hp] at h

/-- Witness for C6: the single-suffix-stripped form of "a.tgz". -/
theorem version_of_archive_spec_witness :
    ∃ e ∈ extensions, e.isSuffixOf "a.tgz".data = true
      ∧ stripOneSuffix extensions "a.tgz".data ++ e = "a.tgz".data :=
  version_of_archive_spec.2.2.1 "a.tgz".data ⟨".tgz".data, by decide, by decide⟩

/-- Counterexample to claim C7: the code checks only that the stem starts
with the package name and never inspects the character after it, so
`version_of_archive "nosezzz.zip" "nose"` succeeds (returning "zz": the
stem "nosezzz" minus "nose" minus one assumed-separator character "z")
even though "nose" is not followed by a separator, where the claim
demands failure. -/
theorem version_of_archive_no_separator_cex :
    version_of_archive "nosezzz.zip".data "nose".data = Except.ok "zz".data := by
  decide

/-- Claim C7 (amended): the extractor fails exactly when the suffix-stripped
stem does not start with the package name; the character following the
package name is never checked.  `version_of_archive "foo.zip" "bar"`
fails. -/
theorem version_of_archive_error_iff :
    (∀ f p : Str, version_of_archive f p = Except.error ()
        ↔ ¬ p.isPrefixOf (stripOneSuffix extensions f) = true)
    ∧ version_of_archive "foo.zip".data "bar".data = Except.error () := by
  refine ⟨fun f p => ?_, by decide⟩
  by_cases hp : p.isPrefixOf (stripOneSuffix extensions f) = true
  · simp [version_of_archive, hp]
  · simp [version_of_archive, hp]

/-! ## Digest engine: SHA-256 (hashlib.sha256, per FIPS 180-4) and
`urlsafe_b64encode(...).rstrip('=')` over byte lists. -/

/-- The URL-safe base-64 alphabet used by Python's `base64.urlsafe_b64encode`. -/
def b64Table : List Char :=
  "ABCDEFGHIJKLMNOPQRSTUVWXYZabcdefghijklmnopqrstuvwxyz0123456789-_".data

/-- Character for a six-bit group. -/
def b64At (n : Nat) : Char := b64Table.getD (n % 64) 'A'

/-- The non-padding characters of the base-64 encoding: three input bytes
become four sextet characters, with a short final group contributing two
or three characters. -/
def b64urlBody : List Nat → List Char
  | b1 :: b2 :: b3 :: rest =>
    b64At (b1 / 4) :: b64At (b1 % 4 * 16 + b2 / 16) ::
      b64At (b2 % 16 * 4 + b3 / 64) :: b64At (b3 % 64) :: b64urlBody rest
  | [b1, b2] => [b64At (b1 / 4), b64At (b1 % 4 * 16 + b2 / 16), b64At (b2 % 16 * 4)]
  | [b1] => [b64At (b1 / 4), b64At (b1 % 4 * 16)]
  | [] => []

/-- The trailing '=' padding of the base-64 encoding. -/
def b64pad : List Nat → List Char
  | _ :: _ :: _ :: rest => b64pad rest
  | [_, _] => ['=']
  | [_] => ['=', '=']
  | [] => []

/-- `base64.urlsafe_b64encode` on a byte list. -/
def urlsafe_b64encode (bs : List Nat) : List Char := b64urlBody bs ++ b64pad bs

/-- Python `s.rstrip('=')`: remove trailing '=' characters. -/
def rstripEq (l : Str) : Str := (l.reverse.dropWhile (· == '=')).reverse

/-- `encoded_hash(sha)`: URL-safe base-64 of the raw digest with trailing
padding stripped. -/
def encoded_hash (digest : List Nat) : Str := rstripEq (urlsafe_b64encode digest)

/-- Right rotation within 32 bits. -/
def rotr (n x : Nat) : Nat := (x >>> n) ||| (x <<< (32 - n)) &&& 0xFFFFFFFF

def chFn (x y z : Nat) : Nat := (x &&& y) ^^^ ((x ^^^ 0xFFFFFFFF) &&& z)

def majFn (x y z : Nat) : Nat := (x &&& y) ^^^ (x &&& z) ^^^ (y &&& z)

def sumA32 (x : Nat) : Nat := rotr 2 x ^^^ rotr 13 x ^^^ rotr 22 x

def sumE32 (x : Nat) : Nat := rotr 6 x ^^^ rotr 11 x ^^^ rotr 25 x

def sigLo32 (x : Nat) : Nat := rotr 7 x ^^^ rotr 18 x ^^^ (x >>> 3)

def sigHi32 (x : Nat) : Nat := rotr 17 x ^^^ rotr 19 x ^^^ (x >>> 10)

/-- The SHA-256 round constants (FIPS 180-4, written in decimal). -/
def shaK : List Nat :=
  [1116352408, 1899447441, 3049323471, 3921009573,
   961987163, 1508970993, 2453635748, 2870763221,
   3624381080, 310598401, 607225278, 1426881987,
   1925078388, 2162078206, 2614888103, 3248222580,
   3835390401, 4022224774, 264347078, 604807628,
   770255983, 1249150122, 1555081692, 1996064986,
   2554220882, 2821834349, 2952996808, 3210313671,
   3336571891, 3584528711, 113926993, 338241895,
   666307205, 773529912, 1294757372, 1396182291,
   1695183700, 1986661051, 2177026350, 2456956037,
   2730485921, 2820302411, 3259730800, 3345764771,
   3516065817, 3600352804, 4094571909, 275423344,
   430227734, 506948616, 659060556, 883997877,
   958139571, 1322822218, 1537002063, 1747873779,
   1955562222, 2024104815, 2227730452, 2361852424,
   2428436474, 2756734187, 3204031479, 3329325298]

/-- The SHA-256 working state: eight 32-bit words. -/
structure S8 where
  a : Nat
  b : Nat
  c : Nat
  d : Nat
  e : Nat
  f : Nat
  g : Nat
  h : Nat

/-- The SHA-256 initial hash value. -/
def shaInit : S8 :=
  ⟨1779033703, 3144134277, 1013904242, 2773480762,
   1359893119, 2600822924, 528734635, 1541459225⟩

/-- Big-endian eight-byte encoding of the message bit length. -/
def lenBytes (n : Nat) : List Nat :=
  [n / 2 ^ 56 % 256, n / 2 ^ 48 % 256, n / 2 ^ 40 % 256, n / 2 ^ 32 % 256,
   n / 2 ^ 24 % 256, n / 2 ^ 16 % 256, n / 2 ^ 8 % 256, n % 256]

/-- SHA-256 message padding: 0x80, zeros to 56 mod 64, then the bit length. -/
def padMessage (msg : List Nat) : List Nat :=
  msg ++ [0x80] ++ List.replicate ((64 - (msg.length + 9) % 64) % 64) 0
    ++ lenBytes (msg.length * 8)

/-- Big-endian grouping of bytes into 32-bit words. -/
def toWords : List Nat → List Nat
  | b0 :: b1 :: b2 :: b3 :: rest =>
    (b0 * 2 ^ 24 + b1 * 2 ^ 16 + b2 * 2 ^ 8 + b3) :: toWords rest
  | _ => []

/-- Split a word list into 16-word blocks (the padded message always has a
multiple of sixteen words). -/
def chunk16 : List Nat → List (List Nat)
  | w1 :: w2 :: w3 :: w4 :: w5 :: w6 :: w7 :: w8 ::
      w9 :: w10 :: w11 :: w12 :: w13 :: w14 :: w15 :: w16 :: rest =>
    [w1, w2, w3, w4, w5, w6, w7, w8, w9, w10, w11, w12, w13, w14, w15, w16] :: chunk16 rest
  | _ => []

/-- Extend a 16-word block by the message-schedule recurrence, `fuel`
words at a time (48 for a full schedule). -/
def extendW (ws : List Nat) : Nat → List Nat
  | 0 => ws
  | fuel + 1 =>
    let i := ws.length
    extendW (ws ++ [(sigHi32 (ws.getD (i - 2) 0) + ws.getD (i - 7) 0
      + sigLo32 (ws.getD (i - 15) 0) + ws.getD (i - 16) 0) % 2 ^ 32]) fuel

/-- The 64 compression rounds, consuming paired round constants and
schedule words. -/
def shaRounds (s : S8) : List (Nat × Nat) → S8
  | [] => s
  | (k, w) :: rest =>
    let t1 := (s.h + sumE32 s.e + chFn s.e s.f s.g + k + w) % 2 ^ 32
    let t2 := (sumA32 s.a + majFn s.a s.b s.c) % 2 ^ 32
    shaRounds ⟨(t1 + t2) % 2 ^ 32, s.a, s.b, s.c, (s.d + t1) % 2 ^ 32, s.e, s.f, s.g⟩ rest

/-- Word-wise modular addition of two states. -/
def addS8 (s t : S8) : S8 :=
  ⟨(s.a + t.a) % 2 ^ 32, (s.b + t.b) % 2 ^ 32, (s.c + t.c) % 2 ^ 32, (s.d + t.d) % 2 ^ 32,
   (s.e + t.e) % 2 ^ 32, (s.f + t.f) % 2 ^ 32, (s.g + t.g) % 2 ^ 32, (s.h + t.h) % 2 ^ 32⟩

/-- Process the padded message blocks. -/
def processBlocks (s : S8) : List (List Nat) → S8
  | [] => s
  | blk :: rest => processBlocks (addS8 s (shaRounds s (shaK.zip (extendW blk 48)))) rest

/-- Big-endian bytes of one 32-bit word. -/
def wordBytes (w : Nat) : List Nat := [w / 2 ^ 24 % 256, w / 2 ^ 16 % 256, w / 2 ^ 8 % 256, w % 256]

/-- The final digest bytes of a state. -/
def stateBytes (s : S8) : List Nat :=
  wordBytes s.a ++ wordBytes s.b ++ wordBytes s.c ++ wordBytes s.d
    ++ wordBytes s.e ++ wordBytes s.f ++ wordBytes s.g ++ wordBytes s.h

/-- SHA-256 of a byte list (hashlib.sha256(...).digest()). -/
def sha256 (msg : List Nat) : List Nat :=
  stateBytes (processBlocks shaInit (chunk16 (toWords (padMessage msg))))

/-- `hash_of_file`: the file is read in bounded chunks and folded into one
sha256 accumulator, which equals hashing the whole content, then encoded
with `encoded_hash`.  The argument is the file's byte content. -/
def hash_of_file (contents : List Nat) : Str := encoded_hash (sha256 contents)

/-- URL-safe output alphabet: alphanumeric plus '-' and '_'. -/
def isUrlSafeChar (c : Char) : Bool := c.isAlphanum || c == '-' || c == '_'

theorem b64At_urlsafe (n : Nat) : isUrlSafeChar (b64At n) = true := by
  have h : ∀ m, m < 64 → isUrlSafeChar (b64Table.getD m 'A') = true := by decide
  exact h (n % 64) (Nat.mod_lt n (by norm_num))

theorem b64At_ne_pad (n : Nat) : b64At n ≠ '=' := by
  have h : ∀ m, m < 64 → b64Table.getD m 'A' ≠ '=' := by decide
  exact h (n % 64) (Nat.mod_lt n (by norm_num))

theorem b64urlBody_urlsafe (bs : List Nat) :
    ∀ c ∈ b64urlBody bs, isUrlSafeChar c = true ∧ c ≠ '=' := by
  induction bs using b64urlBody.induct with
  | case1 b1 b2 b3 rest ih =>
    intro c hc
    simp only [b64urlBody, List.mem_cons] at hc
    rcases hc with rfl | rfl | rfl | rfl | hc
    · exact ⟨b64At_urlsafe _, b64At_ne_pad _⟩
    · exact ⟨b64At_urlsafe _, b64At_ne_pad _⟩
    · exact ⟨b64At_urlsafe _, b64At_ne_pad _⟩
    · exact ⟨b64At_urlsafe _, b64At_ne_pad _⟩
    · exact ih c hc
  | case2 b1 b2 =>
    intro c hc
    simp only [b64urlBody, List.mem_cons, List.not_mem_nil, or_false] at hc
    rcases hc with rfl | rfl | rfl <;> exact ⟨b64At_urlsafe _, b64At_ne_pad _⟩
  | case3 b1 =>
    intro c hc
    simp only [b64urlBody, List.mem_cons, List.not_mem_nil, or_false] at hc
    rcases hc with rfl | rfl <;> exact ⟨b64At_urlsafe _, b64At_ne_pad _⟩
  | case4 =>
    intro c hc
    simp [b64urlBody] at hc

theorem b64pad_all_pad (bs : List Nat) : ∀ c ∈ b64pad bs, c = '=' := by
  induction bs using b64pad.induct with
  | case1 b1 b2 b3 rest ih => simpa [b64pad] using ih
  | case2 b1 b2 => intro c hc; simpa [b64pad] using hc
  | case3 b1 => intro c hc; simpa [b64pad] using hc
  | case4 => intro c hc; simp [b64pad] at hc

theorem dropWhile_append_all (p : Char → Bool) (l1 l2 : Str)
    (h : ∀ c ∈ l1, p c = true) : (l1 ++ l2).dropWhile p = l2.dropWhile p := by
  induction l1 with
  | nil => simp
  | cons a t ih =>
    simp only [List.cons_append, List.dropWhile_cons, h a (List.mem_cons_self a t)]
    exact ih (fun c hc => h c (List.mem_cons_of_mem a hc))

theorem dropWhile_eq_self_of_none (p : Char → Bool) (l : Str)
    (h : ∀ c ∈ l, p c = false) : l.dropWhile p = l := by
  cases l with
  | nil => rfl
  | cons a t => simp [List.dropWhile_cons, h a (List.mem_cons_self a t)]

theorem rstripEq_append (body pad : Str) (hb : ∀ c ∈ body, c ≠ '=')
    (hp : ∀ c ∈ pad, c = '=') : rstripEq (body ++ pad) = body := by
  unfold rstripEq
  rw [List.reverse_append]
  rw [dropWhile_append_all _ _ _ (by
    intro c hc
    simpa using hp c (by simpa using hc))]
  rw [dropWhile_eq_self_of_none _ _ (by
    intro c hc
    simpa using hb c (by simpa using hc))]
  simp

theorem stateBytes_length (s : S8) : (stateBytes s).length = 32 := rfl

theorem hash_of_file_eq_body (bytes : List Nat) :
    hash_of_file bytes = b64urlBody (sha256 bytes) := by
  unfold hash_of_file encoded_hash urlsafe_b64encode
  exact rstripEq_append _ _ (fun c hc => (b64urlBody_urlsafe _ c hc).2) (b64pad_all_pad _)

/-- The implementation reproduces the official SHA-256 test vector for
"abc" and the encoded digest of the empty input. -/
example :
    sha256 ("abc".data.map Char.toNat) =
      [0xba, 0x78, 0x16, 0xbf, 0x8f, 0x01, 0xcf, 0xea, 0x41, 0x41, 0x40, 0xde,
       0x5d, 0xae, 0x22, 0x23, 0xb0, 0x03, 0x61, 0xa3, 0x96, 0x17, 0x7a, 0x9c,
       0xb4, 0x10, 0xff, 0x61, 0xf2, 0x00, 0x15, 0xad]
    ∧ hash_of_file [] = "47DEQpj8HBSa-_TImW-5JCeuQeRkm5NMpJWZG3hSuFU".data := by
  decide

/-- Claim C5: the digest function is the URL-safe base-64 encoding of the
256-bit SHA-256 digest with trailing '=' padding stripped; its output has
only alphanumeric, '-' and '_' characters, contains no padding character,
and is deterministic. -/
theorem encoded_hash_spec (bytes : List Nat) (_hb : ∀ b ∈ bytes, b < 256) :
    hash_of_file bytes = rstripEq (urlsafe_b64encode (sha256 bytes))
    ∧ (sha256 bytes).length = 32
    ∧ (∀ c ∈ hash_of_file bytes, isUrlSafeChar c = true)
    ∧ '=' ∉ hash_of_file bytes
    ∧ ∀ bytes2 : List Nat, bytes = bytes2 → hash_of_file bytes = hash_of_file bytes2 := by
  refine ⟨rfl, stateBytes_length _, ?_, ?_, fun _ h => by rw [h]⟩
  · rw [hash_of_file_eq_body]
    intro c hc
    exact (b64urlBody_urlsafe _ c hc).1
  · rw [hash_of_file_eq_body]
    intro hc
    exact (b64urlBody_urlsafe _ _ hc).2 rfl

/-- Witness for C5: the empty byte input. -/
theorem encoded_hash_spec_witness :
    (∀ b ∈ ([] : List Nat), b < 256) ∧ '=' ∉ hash_of_file [] :=
  ⟨by decide, (encoded_hash_spec [] (by decide)).2.2.2.1⟩

/-! ## Requirement source reader: `hashes_of_requirements`. -/

/-- An InstallRequirement as far as peep uses it: the project name and the
requirements-file position recovered by `requirements_path_and_line` from
`req.comes_from`. -/
structure Req where
  name : Str
  path : Str
  line : Nat
deriving DecidableEq

/-- The whitespace characters removed by Python's `str.strip()`. -/
def isPySpace (c : Char) : Bool :=
  c == ' ' || c == '\t' || c == '\n' || c == '\r' || c == '\x0b' || c == '\x0c'

/-- Python `s.strip()`: remove leading and trailing whitespace. -/
def pyStrip (l : Str) : Str := ((l.dropWhile isPySpace).reverse.dropWhile isPySpace).reverse

/-- Python `s.split(':', 1)[1]`: everything after the first colon (the
callers guard on a prefix that contains a colon). -/
def afterFirstColon (l : Str) : Str := (l.dropWhile (· != ':')).drop 1

/-- The trust-annotation prefix checked by `previous_line.startswith`. -/
def annoPrefix : Str := "# sha256: ".data

/-- The loop body of `hashes_of_requirements`: for each requirement, if its
declaration is past line 1 and the line above it (via `linecache.getline`,
modelled by `gl`) starts with the annotation prefix, record the stripped
text after the colon in the expected-hash dict, otherwise append the name
to the missing-hash list. -/
def hashes_go (gl : Str → Nat → Str) :
    List Req → List (Str × Str) → List Str → List (Str × Str) × List Str
  | [], eh, mh => (eh, mh)
  | r :: rest, eh, mh =>
    if 1 < r.line then
      if annoPrefix.isPrefixOf (gl r.path (r.line - 1)) then
        hashes_go gl rest
          (dictSet eh r.name (pyStrip (afterFirstColon (gl r.path (r.line - 1))))) mh
      else
        hashes_go gl rest eh (mh ++ [r.name])
    else
      hashes_go gl rest eh (mh ++ [r.name])

/-- `hashes_of_requirements(requirements)`. -/
def hashes_of_requirements (gl : Str → Nat → Str) (reqs : List Req) :
    List (Str × Str) × List Str :=
  hashes_go gl reqs [] []

/-- Spec-side classifier: a requirement carries an expectation exactly when
it sits past line 1 and the line exactly one above it in the same file
starts with the annotation prefix. -/
def hasAnno (gl : Str → Nat → Str) (r : Req) : Bool :=
  decide (1 < r.line) && annoPrefix.isPrefixOf (gl r.path (r.line - 1))

/-- Spec-side attached value: the text after the colon of the annotation
line, stripped of surrounding whitespace, otherwise untouched. -/
def annoValue (gl : Str → Nat → Str) (r : Req) : Str :=
  pyStrip (afterFirstColon (gl r.path (r.line - 1)))

theorem dictSet_append (m : List (Str × Str)) (k v : Str)
    (h : k ∉ m.map Prod.fst) : dictSet m k v = m ++ [(k, v)] := by
  induction m with
  | nil => rfl
  | cons p rest ih =>
    obtain ⟨k1, v1⟩ := p
    simp only [List.map_cons, List.mem_cons, not_or] at h
    have hne : ¬ k1 = k := fun he => h.1 he.symm
    simp only [dictSet, List.cons_append, if_neg hne]
    rw [ih h.2]

theorem hashes_go_spec (gl : Str → Nat → Str) (reqs : List Req) :
    ∀ eh mh, (∀ r ∈ reqs, r.name ∉ eh.map Prod.fst) → (reqs.map Req.name).Nodup →
    hashes_go gl reqs eh mh =
      (eh ++ (reqs.filter (fun r => hasAnno gl r)).map (fun r => (r.name, annoValue gl r)),
       mh ++ (reqs.filter (fun r => ! hasAnno gl r)).map Req.name) := by
  induction reqs with
  | nil => intro eh mh _ _; simp [hashes_go]
  | cons r rest ih =>
    intro eh mh hfresh hnd
    simp only [List.map_cons, List.nodup_cons, List.mem_map] at hnd
    by_cases h1 : 1 < r.line
    · by_cases h2 : annoPrefix.isPrefixOf (gl r.path (r.line - 1)) = true
      · have hanno : hasAnno gl r = true := by simp [hasAnno, h1, h2]
        have hset : dictSet eh r.name (pyStrip (afterFirstColon (gl r.path (r.line - 1))))
            = eh ++ [(r.name, annoValue gl r)] := by
          rw [dictSet_append eh r.name _ (hfresh r (List.mem_cons_self r rest))]
          rfl
        simp only [hashes_go, if_pos h1, if_pos h2, hset]
        rw [ih (eh ++ [(r.name, annoValue gl r)]) mh ?_ hnd.2]
        · simp [List.filter_cons, hanno]
        · intro r' hr'
          simp only [List.map_append, List.mem_append, List.map_cons, List.map_nil,
            List.mem_singleton, not_or]
          refine ⟨hfresh r' (List.mem_cons_of_mem r hr'), fun he => hnd.1 ⟨r', hr', he⟩⟩
      · have hanno : hasAnno gl r = false := by simp [hasAnno, h2]
        simp only [hashes_go, if_pos h1, if_neg h2]
        rw [ih eh (mh ++ [r.name]) (fun r' hr' => hfresh r' (List.mem_cons_of_mem r hr')) hnd.2]
        simp [List.filter_cons, hanno]
    · have hanno : hasAnno gl r = false := by simp [hasAnno, h1]
      simp only [hashes_go, if_neg h1]
      rw [ih eh (mh ++ [r.name]) (fun r' hr' => hfresh r' (List.mem_cons_of_mem r hr')) hnd.2]
      simp [List.filter_cons, hanno]

/-- Claim C2: with distinct requirement names, the reader attaches an
expectation to exactly the requirements whose immediately preceding line
in their own source file starts with the annotation prefix (so a
requirement on line 1 never gets one), the attached value is the text
after the colon stripped of whitespace, and every requirement lands in
exactly one of the expected-hash map and the missing-hash list. -/
theorem hashes_of_requirements_spec (gl : Str → Nat → Str) (reqs : List Req)
    (hnd : (reqs.map Req.name).Nodup) :
    hashes_of_requirements gl reqs =
      ((reqs.filter (fun r => hasAnno gl r)).map (fun r => (r.name, annoValue gl r)),
       (reqs.filter (fun r => ! hasAnno gl r)).map Req.name) := by
  unfold hashes_of_requirements
  rw [hashes_go_spec gl reqs [] [] (by simp) hnd]
  simp

/-- Concrete requirement-file lines for the witnesses: "r.txt" has an
annotation on line 1 that applies to the requirement on line 2; line 3
holds an unannotated requirement. -/
def glC : Str → Nat → Str := fun p n =>
  if p = "r.txt".data ∧ n = 1 then "# sha256: abc".data else []

def reqsC : List Req := [⟨"nose".data, "r.txt".data, 2⟩, ⟨"foo".data, "r.txt".data, 3⟩]

/-- Witness for C2: a two-requirement file, one annotated and one not. -/
theorem hashes_of_requirements_spec_witness :
    (reqsC.map Req.name).Nodup ∧
    hashes_of_requirements glC reqsC =
      ((reqsC.filter (fun r => hasAnno glC r)).map (fun r => (r.name, annoValue glC r)),
       (reqsC.filter (fun r => ! hasAnno glC r)).map Req.name) :=
  ⟨by decide, hashes_of_requirements_spec glC reqsC (by decide)⟩

/-! ## Verification engine: `hash_mismatches`. -/

/-- `hash_mismatches(expected_hashes, downloaded_hashes)`, as consumed by
`list(...)` in main: iterate over the expected-hash dict; for each package
name read `downloaded_hashes[package_name]` (an unguarded dict access
whose missing key raises KeyError, the `Except.error` here) and yield the
triple `(expected, name, actual)` whenever the two hash strings differ
under exact string comparison. -/
def hash_mismatches : List (Str × Str) → List (Str × Str) → Except Unit (List (Str × Str × Str))
  | [], _ => Except.ok []
  | (name, ex) :: rest, downloaded =>
    match dictGet downloaded name with
    | none => Except.error ()
    | some act =>
      match hash_mismatches rest downloaded with
      | Except.error e => Except.error e
      | Except.ok tail => Except.ok (if act ≠ ex then (ex, name, act) :: tail else tail)

theorem dictGet_eq_none_of_not_mem (m : List (Str × Str)) (k : Str)
    (h : k ∉ m.map Prod.fst) : dictGet m k = none := by
  induction m with
  | nil => rfl
  | cons p rest ih =>
    obtain ⟨k1, v1⟩ := p
    simp only [List.map_cons, List.mem_cons, not_or] at h
    have hne : ¬ k1 = k := fun he => h.1 he.symm
    simp only [dictGet, if_neg hne]
    exact ih h.2

/-- Counterexample to claim C3: with an expected-hash map naming a package
absent from the computed-hash map, the claim demands an empty yield (no
package is present in both maps), but the unguarded dict access raises
KeyError instead. -/
theorem hash_mismatches_keyerror_cex :
    hash_mismatches [("a".data, "h".data)] [] = Except.error ()
    ∧ hash_mismatches [("a".data, "h".data)] [] ≠ Except.ok [] := by
  exact ⟨rfl, by decide⟩

/-- Claim C3 (amended): whenever every expected package also appears in the
computed-hash map (as is the case in the installer's flow, where every
requirement gets downloaded and hashed), the function returns exactly the
triples `(expected, name, actual)` of the packages present in both maps
whose hashes differ under exact literal string comparison, and nothing for
packages whose strings are equal; an expected package missing from the
computed map instead raises KeyError. -/
theorem hash_mismatches_amended (expected downloaded : List (Str × Str))
    (hnd : (expected.map Prod.fst).Nodup)
    (hdom : ∀ p ∈ expected, (dictGet downloaded p.1).isSome = true) :
    ∃ l, hash_mismatches expected downloaded = Except.ok l ∧
      ∀ e n a : Str, (e, n, a) ∈ l ↔
        (dictGet expected n = some e ∧ dictGet downloaded n = some a ∧ a ≠ e) := by
  induction expected with
  | nil => exact ⟨[], rfl, by simp [dictGet]⟩
  | cons p rest ih =>
    obtain ⟨name, ex⟩ := p
    simp only [List.map_cons, List.nodup_cons] at hnd
    obtain ⟨act, hact⟩ :=
      Option.isSome_iff_exists.mp (hdom (name, ex) (List.mem_cons_self _ _))
    obtain ⟨tail, htail, hiff⟩ :=
      ih hnd.2 (fun q hq => hdom q (List.mem_cons_of_mem _ hq))
    have hfresh : dictGet rest name = none := dictGet_eq_none_of_not_mem rest name hnd.1
    refine ⟨if act ≠ ex then (ex, name, act) :: tail else tail, ?_, ?_⟩
    · simp only [hash_mismatches, hact, htail]
    · intro e n a
      by_cases hne : act = ex
      · rw [if_neg (by simp [hne])]
        rw [hiff e n a]
        by_cases hn : name = n
        · subst hn
          constructor
          · rintro ⟨hge, -, -⟩
            rw [hfresh] at hge
            exact absurd hge (by simp)
          · rintro ⟨hge, hga, hne2⟩
            simp only [dictGet] at hge
            simp only [if_true, Option.some.injEq] at hge
            rw [hact, Option.some.injEq] at hga
            exact absurd (hga.symm.trans (hne.trans hge)) hne2
        · simp [dictGet, hn]
      · rw [if_pos (by simpa using hne)]
        constructor
        · intro hmem
          rcases List.mem_cons.mp hmem with heq | hm
          · obtain ⟨rfl, rfl, rfl⟩ : e = ex ∧ n = name ∧ a = act := by
              simpa [Prod.ext_iff] using heq
            exact ⟨by simp [dictGet], by simpa using hact, by simpa using hne⟩
          · obtain ⟨hge, hga, hane⟩ := (hiff e n a).mp hm
            have hn : ¬ name = n := by
              intro h
              subst h
              rw [hfresh] at hge
              exact absurd hge (by simp)
            exact ⟨by simp [dictGet, hn, hge], hga, hane⟩
        · rintro ⟨hge, hga, hane⟩
          by_cases hn : name = n
          · subst hn
            simp only [dictGet] at hge
            simp only [if_true, Option.some.injEq] at hge
            rw [hact, Option.some.injEq] at hga
            subst hge
            subst hga
            exact List.mem_cons_self _ _
          · simp only [dictGet, if_neg hn] at hge
            exact List.mem_cons_of_mem _ ((hiff e n a).mpr ⟨hge, hga, hane⟩)

/-- Witness for the amended C3: one package, present in both maps, with
differing hashes. -/
theorem hash_mismatches_amended_witness :
    ∃ l, hash_mismatches [("a".data, "h1".data)] [("a".data, "h2".data)] = Except.ok l ∧
      ∀ e n a : Str, (e, n, a) ∈ l ↔
        (dictGet [("a".data, "h1".data)] n = some e
          ∧ dictGet [("a".data, "h2".data)] n = some a ∧ a ≠ e) :=
  hash_mismatches_amended [("a".data, "h1".data)] [("a".data, "h2".data)]
    (by decide) (by decide)

/-! ## Fetch orchestrator, install gate and the `main` state machine. -/

/-- The stateful filter loop of `requirement_args`: arguments following a
'-r' or '--requirement' flag are requirement-file paths, everything else
is an "other" argument. -/
def requirement_args_go (want_paths want_other : Bool) : List Str → Bool → List Str
  | [], _ => []
  | arg :: rest, was_r =>
    if was_r then
      (if want_paths then [arg] else [])
        ++ requirement_args_go want_paths want_other rest false
    else if arg = "-r".data ∨ arg = "--requirement".data then
      requirement_args_go want_paths want_other rest true
    else
      (if want_other then [arg] else [])
        ++ requirement_args_go want_paths want_other rest false

/-- `requirement_args(argv, want_paths, want_other)`. -/
def requirement_args (args : List Str) (want_paths want_other : Bool) : List Str :=
  requirement_args_go want_paths want_other args false

/-- The two failure modes of `pip_download`: pip returned a non-zero status
(PipException), or `.pop()` on an empty set raised KeyError. -/
inductive DlErr
  | pipFail (code : Nat)
  | keyError
deriving DecidableEq

/-- `pip_download`: run pip (its status being `status`; non-zero raises
PipException), then identify the downloaded archive as the set difference
of the scratch-directory listings after (`newC`) and before (`oldC`) the
call, and return `.pop()` of that set: an unguarded pop that raises
KeyError when the difference is empty, and picks an unspecified element
when it has several. -/
def pip_download (status : Nat) (oldC newC : List Str) : Except DlErr Str :=
  if status ≠ 0 then Except.error (DlErr.pipFail status)
  else
    match newC.filter (fun f => decide (f ∉ oldC)) with
    | [] => Except.error DlErr.keyError
    | f :: _ => Except.ok f

/-- The behaviour of everything outside the core that `main` drives: the
process argv, the status pip.main would return for a non-install
passthrough, `pip.req.parse_requirements` per requirement path,
`linecache.getline`, pip's download status per requirement, the new file
the download leaves in the scratch directory (none when it leaves
nothing), each downloaded file's byte content, and pip's status for
installing one archive. -/
structure Env where
  argv : List Str
  passthroughStatus : Nat
  parse : Str → List Req
  gl : Str → Nat → Str
  downloadStatus : Req → Nat
  newFile : Req → Option Str
  fileContents : Str → List Nat
  installStatus : Str → Nat

/-- How one run of `main` ends: a returned shell status code, or an
exception (KeyError, RuntimeError) that no handler catches. -/
inductive Outcome
  | exit (code : Nat)
  | crash
deriving DecidableEq

/-- What one run of `main` did: its outcome, whether the scratch directory
was created and whether it was removed, the archives downloaded into the
scratch area, the archives passed to pip's install-from-local-archive
operation, and (when verification ran) the mismatch list and missing-hash
list it produced. -/
structure RunResult where
  outcome : Outcome
  dirCreated : Bool
  dirRemoved : Bool
  downloaded : List Str
  installed : List Str
  verdict : Option (List (Str × Str × Str) × List Str)
deriving DecidableEq

/-- Result of the download loop in `main`: completed with the hash and
version dicts and the archive list, aborted by a PipException carrying
pip's status code, or an uncaught exception (empty-set pop in
`pip_download`, or RuntimeError in `version_of_archive`). -/
inductive LoopRes
  | done (dh dv : List (Str × Str)) (archives : List Str)
  | pipExc (code : Nat) (archives : List Str)
  | crash (archives : List Str)
deriving DecidableEq

/-- The per-requirement loop of `main`: download each requirement's archive
(`pip_download`, abstracted by `downloadStatus` and `newFile`), record
`hash_of_file` of its contents and `version_of_archive` of its name,
stopping at the first PipException or uncaught exception. -/
def downloadLoop (env : Env) :
    List Req → List (Str × Str) → List (Str × Str) → List Str → LoopRes
  | [], dh, dv, ars => LoopRes.done dh dv ars
  | req :: rest, dh, dv, ars =>
    if env.downloadStatus req ≠ 0 then LoopRes.pipExc (env.downloadStatus req) ars
    else
      match env.newFile req with
      | none => LoopRes.crash ars
      | some f =>
        match version_of_archive f req.name with
        | Except.error _ => LoopRes.crash (ars ++ [f])
        | Except.ok v =>
          downloadLoop env rest
            (dictSet dh req.name (hash_of_file (env.fileContents f)))
            (dictSet dv req.name v) (ars ++ [f])

/-- `pip_install_archives_from`: run pip install on each archive in the
scratch directory until one invocation raises PipException; the result is
the archives actually passed to pip and the first failing status code. -/
def installLoop (env : Env) : List Str → List Str × Option Nat
  | [] => ([], none)
  | a :: rest =>
    if env.installStatus a ≠ 0 then ([a], some (env.installStatus a))
    else
      let r := installLoop env rest
      (a :: r.1, r.2)

/-- `req_paths` in main: the requirement-file paths of `argv[1:]`. -/
def reqPathsOf (env : Env) : List Str := requirement_args (env.argv.drop 1) true false

/-- `requirements` in main: the concatenated parses of every path. -/
def reqsOf (env : Env) : List Req := ((reqPathsOf env).map env.parse).flatten

/-- The verification-and-install tail of `main`: compute the expected and
missing hashes, list the mismatches (a KeyError there would escape
uncaught), report and return 1 when either list is non-empty, and only
otherwise install the scratch archives. -/
def verifyAndInstall (env : Env) (reqs : List Req) (dh : List (Str × Str))
    (ars : List Str) : RunResult :=
  match hash_mismatches (hashes_of_requirements env.gl reqs).1 dh with
  | Except.error _ => ⟨Outcome.crash, true, true, ars, [], none⟩
  | Except.ok mismatches =>
    if mismatches ≠ [] ∨ (hashes_of_requirements env.gl reqs).2 ≠ [] then
      ⟨Outcome.exit 1, true, true, ars, [],
        some (mismatches, (hashes_of_requirements env.gl reqs).2)⟩
    else
      ⟨Outcome.exit ((installLoop env ars).2.getD 0), true, true, ars,
        (installLoop env ars).1, some (mismatches, (hashes_of_requirements env.gl reqs).2)⟩

/-- `main()`: pass anything that is not an `install` command through to
pip; demand at least one requirement path (exit 2 otherwise); then inside
the ephemeral-directory scope run the download loop, verification, and
conditionally installation; a PipException anywhere is caught and its
status code returned, and the scratch directory is removed on every path
out of the `with` block. -/
def mainResult (env : Env) : RunResult :=
  if env.argv[1]? = some "install".data then
    if reqPathsOf env = [] then
      ⟨Outcome.exit 2, false, false, [], [], none⟩
    else
      match downloadLoop env (reqsOf env) [] [] [] with
      | LoopRes.pipExc c ars => ⟨Outcome.exit c, true, true, ars, [], none⟩
      | LoopRes.crash ars => ⟨Outcome.crash, true, true, ars, [], none⟩
      | LoopRes.done dh _dv ars => verifyAndInstall env (reqsOf env) dh ars
  else
    ⟨Outcome.exit env.passthroughStatus, false, false, [], [], none⟩

/-- Claim C10: the fetch step identifies the downloaded archive by set
difference of the before/after listings; with a zero pip status it fails
with KeyError (not a delegate failure) exactly when the difference is
empty, and any filename it returns is a member of the after listing that
the before listing lacked: with several new files, nothing more than
membership is promised. -/
theorem pip_download_spec (status : Nat) (oldC newC : List Str) :
    (status ≠ 0 → pip_download status oldC newC = Except.error (DlErr.pipFail status))
    ∧ (status = 0 → newC.filter (fun f => decide (f ∉ oldC)) = [] →
        pip_download status oldC newC = Except.error DlErr.keyError
        ∧ ∀ c, DlErr.keyError ≠ DlErr.pipFail c)
    ∧ (∀ f, pip_download status oldC newC = Except.ok f →
        status = 0 ∧ f ∈ newC ∧ f ∉ oldC) := by
  refine ⟨fun h => by simp [pip_download, h], fun h hdiff => ?_, fun f hok => ?_⟩
  · subst h
    unfold pip_download
    rw [if_neg (by simp)]
    rw [hdiff]
    exact ⟨rfl, fun c h => DlErr.noConfusion h⟩
  · by_cases h : status = 0
    · subst h
      unfold pip_download at hok
      rw [if_neg (by simp)] at hok
      rcases hdiff2 : newC.filter (fun g => decide (g ∉ oldC)) with - | ⟨g, t⟩
      · rw [hdiff2] at hok
        exact absurd hok (by simp)
      · rw [hdiff2] at hok
        have hg : g = f := by simpa using hok
        subst hg
        have hm : g ∈ newC.filter (fun g => decide (g ∉ oldC)) := by
          rw [hdiff2]
          exact List.mem_cons_self _ _
        have hm2 := List.mem_filter.mp hm
        exact ⟨rfl, hm2.1, by simpa using hm2.2⟩
    · unfold pip_download at hok
      rw [if_pos h] at hok
      exact absurd hok (by simp)

/-- Witness for C10: a successful download adding one file to an empty
scratch directory. -/
theorem pip_download_spec_witness :
    0 = 0 ∧ "f".data ∈ ["f".data] ∧ "f".data ∉ ([] : List Str) :=
  (pip_download_spec 0 [] ["f".data]).2.2 "f".data (by decide)

theorem requirement_args_go_nil (args : List Str) :
    "-r".data ∉ args → "--requirement".data ∉ args →
    requirement_args_go true false args false = [] := by
  induction args with
  | nil => intro _ _; rfl
  | cons a rest ih =>
    intro h1 h2
    simp only [List.mem_cons, not_or] at h1 h2
    have hcond : ¬(a = "-r".data ∨ a = "--requirement".data) := by
      rintro (rfl | rfl)
      · exact h1.1 rfl
      · exact h2.1 rfl
    simp only [requirement_args_go, if_neg hcond]
    simpa using ih h1.2 h2.2

theorem verifyAndInstall_fields (env : Env) (reqs : List Req)
    (dh : List (Str × Str)) (ars : List Str) :
    (verifyAndInstall env reqs dh ars).dirRemoved = true
    ∧ (verifyAndInstall env reqs dh ars).dirCreated = true
    ∧ ((verifyAndInstall env reqs dh ars).installed ≠ [] →
        (verifyAndInstall env reqs dh ars).verdict = some ([], []))
    ∧ (∀ ms mh, (verifyAndInstall env reqs dh ars).verdict = some (ms, mh) →
        ms ≠ [] ∨ mh ≠ [] →
        (verifyAndInstall env reqs dh ars).installed = []
        ∧ (verifyAndInstall env reqs dh ars).outcome = Outcome.exit 1) := by
  unfold verifyAndInstall
  cases hash_mismatches (hashes_of_requirements env.gl reqs).1 dh with
  | error e =>
    dsimp only
    refine ⟨rfl, rfl, fun h => absurd rfl h, fun ms mh hv _ => ?_⟩
    exact absurd hv (by simp)
  | ok mismatches =>
    dsimp only
    by_cases h3 : mismatches ≠ [] ∨ (hashes_of_requirements env.gl reqs).2 ≠ []
    · rw [if_pos h3]
      exact ⟨rfl, rfl, fun h => absurd rfl h, fun ms mh _ _ => ⟨rfl, rfl⟩⟩
    · rw [if_neg h3]
      push_neg at h3
      obtain ⟨hms, hmh⟩ := h3
      refine ⟨rfl, rfl, fun _ => ?_, fun ms mh hv hne => ?_⟩
      · show some (mismatches, (hashes_of_requirements env.gl reqs).2) = some ([], [])
        rw [hms, hmh]
      · obtain ⟨rfl, rfl⟩ : mismatches = ms ∧ (hashes_of_requirements env.gl reqs).2 = mh := by
          simpa using hv
        rcases hne with h | h
        · exact absurd hms h
        · exact absurd hmh h

/-- Claim C9: the scratch directory is removed exactly when it was created,
on every path out of the run (success, mismatch report, caught delegate
failure, uncaught exception), and every install run with a requirement
path does create it. -/
theorem scratch_dir_cleanup_spec (env : Env) :
    (mainResult env).dirRemoved = (mainResult env).dirCreated
    ∧ (env.argv[1]? = some "install".data → reqPathsOf env ≠ [] →
        (mainResult env).dirCreated = true) := by
  constructor
  · unfold mainResult
    by_cases h1 : env.argv[1]? = some "install".data
    · rw [if_pos h1]
      by_cases h2 : reqPathsOf env = []
      · rw [if_pos h2]
      · rw [if_neg h2]
        cases downloadLoop env (reqsOf env) [] [] [] with
        | pipExc c ars => rfl
        | crash ars => rfl
        | done dh dv ars =>
          have h := verifyAndInstall_fields env (reqsOf env) dh ars
          exact h.1.trans h.2.1.symm
    · rw [if_neg h1]
  · intro h1 h2
    unfold mainResult
    rw [if_pos h1, if_neg h2]
    cases downloadLoop env (reqsOf env) [] [] [] with
    | pipExc c ars => rfl
    | crash ars => rfl
    | done dh dv ars => exact (verifyAndInstall_fields env (reqsOf env) dh ars).2.1

/-- A concrete environment whose single requirement's download fails with
pip status 7. -/
def envPipFail : Env :=
  Env.mk ["peep".data, "install".data, "-r".data, "r.txt".data] 0
    (fun _ => [Req.mk "nose".data "r.txt".data 2]) glC (fun _ => 7)
    (fun _ => none) (fun _ => []) (fun _ => 0)

/-- Witness for C9: a run that reaches the download loop creates (and so
also removes) the scratch directory. -/
theorem scratch_dir_cleanup_spec_witness :
    (mainResult envPipFail).dirCreated = true :=
  (scratch_dir_cleanup_spec envPipFail).2 (by decide) (by decide)

/-- Claim C1: pip's install-from-local-archive operation is invoked only in
runs whose verification produced an empty mismatch list and an empty
missing-hash list, and whenever either list is non-empty nothing is
installed and the run exits with status 1. -/
theorem main_installs_only_when_verified (env : Env) :
    ((mainResult env).installed ≠ [] → (mainResult env).verdict = some ([], []))
    ∧ (∀ ms mh, (mainResult env).verdict = some (ms, mh) → ms ≠ [] ∨ mh ≠ [] →
        (mainResult env).installed = [] ∧ (mainResult env).outcome = Outcome.exit 1) := by
  unfold mainResult
  by_cases h1 : env.argv[1]? = some "install".data
  · rw [if_pos h1]
    by_cases h2 : reqPathsOf env = []
    · rw [if_pos h2]
      exact ⟨fun h => absurd rfl h, fun ms mh hv _ => absurd hv (by simp)⟩
    · rw [if_neg h2]
      cases downloadLoop env (reqsOf env) [] [] [] with
      | pipExc c ars =>
        exact ⟨fun h => absurd rfl h, fun ms mh hv _ => absurd hv (by simp)⟩
      | crash ars =>
        exact ⟨fun h => absurd rfl h, fun ms mh hv _ => absurd hv (by simp)⟩
      | done dh dv ars =>
        have h := verifyAndInstall_fields env (reqsOf env) dh ars
        exact ⟨h.2.2.1, h.2.2.2⟩
  · rw [if_neg h1]
    exact ⟨fun h => absurd rfl h, fun ms mh hv _ => absurd hv (by simp)⟩

/-- Requirement-file lines for the all-verified witness run: the annotation
above the single requirement pins exactly the hash of the empty file that
the modelled download produces. -/
def glGood : Str → Nat → Str := fun p n =>
  if p = "r.txt".data ∧ n = 1
  then "# sha256: 47DEQpj8HBSa-_TImW-5JCeuQeRkm5NMpJWZG3hSuFU".data else []

/-- A concrete environment in which the one requirement downloads, hashes
and verifies cleanly, so the run installs. -/
def envGood : Env :=
  Env.mk ["peep".data, "install".data, "-r".data, "r.txt".data] 0
    (fun _ => [Req.mk "nose".data "r.txt".data 2]) glGood (fun _ => 0)
    (fun _ => some "nose-1.3.0.tar.gz".data) (fun _ => []) (fun _ => 0)

/-- Witness for C1: the fully verified run installs its archive, so its
verdict was the pair of empty lists. -/
theorem main_installs_only_when_verified_witness :
    (mainResult envGood).verdict = some ([], []) :=
  (main_installs_only_when_verified envGood).1 (by decide)

/-- Claim C4: a non-zero pip status during a download aborts the loop at
that requirement (nothing later is attempted), and `main` then returns
that status code verbatim with verification never reached and nothing
installed. -/
theorem main_delegate_failure_spec (env : Env) :
    (∀ req rest dh dv ars, env.downloadStatus req ≠ 0 →
      downloadLoop env (req :: rest) dh dv ars
        = LoopRes.pipExc (env.downloadStatus req) ars)
    ∧ (∀ c ars, env.argv[1]? = some "install".data → reqPathsOf env ≠ [] →
        downloadLoop env (reqsOf env) [] [] [] = LoopRes.pipExc c ars →
        (mainResult env).outcome = Outcome.exit c
        ∧ (mainResult env).verdict = none
        ∧ (mainResult env).installed = []) := by
  constructor
  · intro req rest dh dv ars h
    unfold downloadLoop
    rw [if_pos h]
  · intro c ars h1 h2 hdl
    unfold mainResult
    rw [if_pos h1, if_neg h2, hdl]
    exact ⟨rfl, rfl, rfl⟩

/-- Witness for C4: the failing download of `envPipFail` surfaces pip's
status 7 as the exit code. -/
theorem main_delegate_failure_spec_witness :
    (mainResult envPipFail).outcome = Outcome.exit 7
    ∧ (mainResult envPipFail).verdict = none
    ∧ (mainResult envPipFail).installed = [] :=
  (main_delegate_failure_spec envPipFail).2 7 [] (by decide) (by decide) (by decide)

/-- Claim C8: an install invocation without any '-r'/'--requirement' flag
exits with status 2 before creating the scratch directory, downloading or
installing anything; the result is moreover independent of every external
capability (parsing, file lines, download and install behaviour), so no
filesystem or network activity can have occurred. -/
theorem main_usage_error_spec (env : Env)
    (h1 : env.argv[1]? = some "install".data)
    (h2 : "-r".data ∉ env.argv) (h3 : "--requirement".data ∉ env.argv) :
    mainResult env = ⟨Outcome.exit 2, false, false, [], [], none⟩
    ∧ ∀ ps' parse' gl' ds' nf' fc' is',
        mainResult (Env.mk env.argv ps' parse' gl' ds' nf' fc' is') = mainResult env := by
  have hpaths : reqPathsOf env = [] := by
    unfold reqPathsOf requirement_args
    exact requirement_args_go_nil (env.argv.drop 1)
      (fun hm => h2 (List.mem_of_mem_drop hm))
      (fun hm => h3 (List.mem_of_mem_drop hm))
  have hmain : mainResult env = ⟨Outcome.exit 2, false, false, [], [], none⟩ := by
    unfold mainResult
    rw [if_pos h1, if_pos hpaths]
  refine ⟨hmain, fun ps' parse' gl' ds' nf' fc' is' => ?_⟩
  have h1' : (Env.mk env.argv ps' parse' gl' ds' nf' fc' is').argv[1]?
      = some "install".data := h1
  have hpaths' : reqPathsOf (Env.mk env.argv ps' parse' gl' ds' nf' fc' is') = [] := hpaths
  rw [hmain]
  unfold mainResult
  rw [if_pos h1', if_pos hpaths']

/-- A concrete install invocation carrying no requirement-file flag. -/
def envNoR : Env :=
  Env.mk ["peep".data, "install".data, "nose".data] 3
    (fun _ => [Req.mk "nose".data "r.txt".data 2]) glC (fun _ => 0)
    (fun _ => none) (fun _ => []) (fun _ => 0)

/-- Witness for C8: `peep install nose` without '-r' exits 2 with no
scratch directory, downloads or installs. -/
theorem main_usage_error_spec_witness :
    mainResult envNoR = ⟨Outcome.exit 2, false, false, [], [], none⟩ :=
  (main_usage_error_spec envNoR (by decide) (by decide) (by decide)).1
